import Mathlib

/-!
Shallow embedding of `src/utils/ml_project_creator.py` (the AutoTrainix
project scaffolding utility) and proofs about its folder-specification
parser, project builder and tree renderer.

Python strings are modelled as Lean `String` (lists of characters), Python
dicts as insertion-ordered association lists, and the filesystem as a pair
of finite lists of directory and file paths, a path being its list of
components.
-/

namespace MLProject

/-- Whitespace set of Python's default `str.strip()`, restricted to the
characters it shares with ASCII text. -/
def isPySpace (c : Char) : Bool :=
  c = ' ' || c = '\t' || c = '\n' || c = '\r' || c.val = 11 || c.val = 12

/-- Characters of a string with leading and trailing whitespace removed:
Python's `s.strip()` on the character list. -/
def pyStripChars (s : List Char) : List Char :=
  ((s.dropWhile isPySpace).reverse.dropWhile isPySpace).reverse

/-- Python's `s.strip()`. -/
def pyStrip (s : String) : String :=
  String.mk (pyStripChars s.data)

/-- Split a character list at its first colon, embedding Python's
`spec.split(':', 1)` fused with the `':' in spec` test: `none` when the
string contains no colon. -/
def breakAtColon : List Char → Option (List Char × List Char)
  | [] => none
  | c :: cs =>
    if c = ':' then some ([], cs)
    else
      match breakAtColon cs with
      | none => none
      | some (l, r) => some (c :: l, r)

/-- Split a character list on every comma, keeping empty pieces: Python's
`sub_spec.split(',')`. -/
def splitCommas : List Char → List (List Char)
  | [] => [[]]
  | c :: cs =>
    if c = ',' then [] :: splitCommas cs
    else
      match splitCommas cs with
      | [] => [[c]]
      | h :: t => (c :: h) :: t

/-- One iteration of `parse_folders_with_colon`'s loop (source lines
166-172): the folder name and subfolder list extracted from one spec
token. -/
def parseToken (spec : String) : String × List String :=
  match breakAtColon spec.data with
  | some (folder_name, sub_spec) =>
    (String.mk folder_name,
      (((splitCommas sub_spec).map pyStripChars).filter (fun s => s ≠ [])).map String.mk)
  | none => (spec, [])

/-- Python dict assignment `result[k] = v` on an insertion-ordered
association list: overwrite in place when the key is present, append
otherwise. -/
def dictInsert : List (String × List String) → String → List String → List (String × List String)
  | [], k, v => [(k, v)]
  | (k', v') :: rest, k, v =>
    if k' = k then (k, v) :: rest else (k', v') :: dictInsert rest k v

/-- Python dict lookup as an option. -/
def dictGet? (m : List (String × List String)) (k : String) : Option (List String) :=
  (m.find? (fun p => p.1 == k)).map Prod.snd

/-- `parse_folders_with_colon` (source lines 151-174): fold each token's
parse into a Python dict. -/
def parse_folders_with_colon (folder_specs : List String) : List (String × List String) :=
  folder_specs.foldl
    (fun result spec => dictInsert result (parseToken spec).1 (parseToken spec).2) []

/-- Folder name of one token: the first component of `parseToken`. -/
def tokenName (spec : String) : String := (parseToken spec).1

/-- Subfolder list of one token: the second component of `parseToken`. -/
def tokenSubs (spec : String) : List String := (parseToken spec).2

/-- The specification's wording of the per-token parse, phrased with
`takeWhile`/`dropWhile` at the first colon instead of the source's
single-pass split: used to check `parseToken` against the spec. -/
def claimParseToken (spec : String) : String × List String :=
  if ':' ∈ spec.data then
    let tname := spec.data.takeWhile (fun c => c ≠ ':')
    let rest := (spec.data.dropWhile (fun c => c ≠ ':')).drop 1
    (String.mk tname,
      (((splitCommas rest).map pyStripChars).filter (fun s => s ≠ [])).map String.mk)
  else (spec, [])

/-- Join character lists with a comma between consecutive pieces: the shape
of the subfolder portion of a colon token. -/
def commaJoin : List (List Char) → List Char
  | [] => []
  | [x] => x
  | x :: xs => x ++ ',' :: commaJoin xs

/-- Surround each piece with the corresponding padding from `padl` and
`padr`. -/
def padPieces (padl pieces padr : List (List Char)) : List (List Char) :=
  List.zipWith3 (fun l p r => l ++ p ++ r) padl pieces padr

deriving instance DecidableEq for Except

/-- A filesystem snapshot: the finite sets of existing directory paths and
file paths, a path being its list of components from the root. -/
structure FS where
  dirs : List (List String)
  files : List (List String)
deriving DecidableEq, Repr

/-- Python's `Path.is_dir()`. -/
def isDir (fs : FS) (p : List String) : Bool := fs.dirs.contains p

/-- Python's `Path.is_file()`. -/
def isFile (fs : FS) (p : List String) : Bool := fs.files.contains p

/-- OS-level failures of `Path.mkdir`. -/
inductive OSErr where
  | fileExists (p : List String)
  | fileNotFound (p : List String)
deriving DecidableEq, Repr

/-- Python's `Path.mkdir(exist_ok=True)` without `parents`: a no-op on an
existing directory, `FileExistsError` on an existing file, creation when the
parent directory exists, `FileNotFoundError` otherwise. -/
def mkdir (fs : FS) (p : List String) : Except OSErr FS :=
  if isDir fs p then .ok fs
  else if isFile fs p then .error (.fileExists p)
  else if isDir fs p.dropLast then .ok ⟨p :: fs.dirs, fs.files⟩
  else .error (.fileNotFound p)

/-- The inner loop of `_create_directory_recursive` (source lines 50-52):
create each subfolder of one folder in list order; an error carries the
filesystem state reached at the failure point. -/
def mkdirSubs (folder_path : List String) (sub_folders : List String) (fs : FS) :
    Except (OSErr × FS) FS :=
  match sub_folders with
  | [] => .ok fs
  | s :: rest =>
    match mkdir fs (folder_path ++ [s]) with
    | .error e => .error (e, fs)
    | .ok fs' => mkdirSubs folder_path rest fs'

/-- `_create_directory_recursive` (source lines 36-53): for each
`(folder_name, sub_folders)` entry create `base_path/folder_name`, then its
subfolders in order. -/
def create_directory_recursive (base_path : List String)
    (struct : List (String × List String)) (fs : FS) : Except (OSErr × FS) FS :=
  match struct with
  | [] => .ok fs
  | (folder_name, sub_folders) :: rest =>
    match mkdir fs (base_path ++ [folder_name]) with
    | .error e => .error (e, fs)
    | .ok fs₁ =>
      match mkdirSubs (base_path ++ [folder_name]) sub_folders fs₁ with
      | .error efs => .error efs
      | .ok fs₂ => create_directory_recursive base_path rest fs₂

/-- A local date-time with second resolution, the input of
`datetime.now().strftime`. -/
structure DateTime where
  year : Nat
  month : Nat
  day : Nat
  hour : Nat
  minute : Nat
  second : Nat
deriving DecidableEq, Repr

/-- Decimal rendering of `n` left-padded with zeros to width `w`. -/
def padNat (w n : Nat) : String :=
  let s := toString n
  String.mk (List.replicate (w - s.length) '0' ++ s.data)

/-- `datetime.strftime("%Y%m%d_%H%M%S")`. -/
def strftime_YmdHMS (t : DateTime) : String :=
  padNat 4 t.year ++ padNat 2 t.month ++ padNat 2 t.day ++ "_" ++
    padNat 2 t.hour ++ padNat 2 t.minute ++ padNat 2 t.second

/-- Errors raised by `create_project`. -/
inductive PyErr where
  | valueError (msg : String)
  | osError (e : OSErr)
deriving DecidableEq, Repr

/-- The error classification printed by `main` (source lines 223-228). -/
def main_error_category : PyErr → String
  | .valueError _ => "Input error"
  | .osError _ => "File system error"

/-- `create_project` (source lines 109-149): validate the name, build the
timestamped root path under the current working directory, create the root
and the structure, and return the root path. Errors carry the filesystem
state at the point of failure; an `OSError` is re-raised unchanged. -/
def create_project (struct : List (String × List String)) (project_name : String)
    (now : DateTime) (cwd : List String) (fs : FS) :
    Except (PyErr × FS) (List String × FS) :=
  if pyStrip project_name = "" then
    .error (.valueError "Project name cannot be empty", fs)
  else
    let timestamp := strftime_YmdHMS now
    let full_project_name := project_name ++ "_" ++ timestamp
    let project_root := cwd ++ [full_project_name]
    match mkdir fs project_root with
    | .error e => .error (.osError e, fs)
    | .ok fs₁ =>
      match create_directory_recursive project_root struct fs₁ with
      | .error (e, fs₂) => .error (.osError e, fs₂)
      | .ok fs₂ => .ok (project_root, fs₂)

/-- Python's `Path.name`: the final path component. -/
def pathName (p : List String) : String := p.getLast?.getD ""

/-- Lexicographic comparison of character lists by code point: Python's
string ordering. -/
def strLtChars : List Char → List Char → Bool
  | [], [] => false
  | [], _ :: _ => true
  | _ :: _, [] => false
  | a :: as, b :: bs =>
    if a.toNat < b.toNat then true
    else if b.toNat < a.toNat then false
    else strLtChars as bs

/-- Python's `<` on strings. -/
def pyStrLt (a b : String) : Bool := strLtChars a.data b.data

/-- Stable insertion into a sorted list under `pyStrLt`. -/
def insertSorted (x : String) : List String → List String
  | [] => [x]
  | y :: ys => if pyStrLt y x then y :: insertSorted x ys else x :: y :: ys

/-- Python's `sorted` (ascending, stable) on strings. -/
def sortStrings (l : List String) : List String := l.foldr insertSorted []

/-- `sorted([item for item in path.iterdir()])` restricted to the entry
names: the children of `p`, both directories and files, in ascending name
order (entries of one directory compare by their final component). -/
def iterdirSorted (fs : FS) (p : List String) : List String :=
  sortStrings (((fs.dirs ++ fs.files).filter
    (fun q => q.dropLast == p && !q.isEmpty)).map pathName)

/-- The source file's `is_last` connector string, code points exactly as
they stand in the file's bytes. -/
def connectorLast : String := "â””â”€â”€ "

/-- The source file's not-last connector string. -/
def connectorMid : String := "â”œâ”€â”€ "

/-- The source file's vertical continuation prefix piece. -/
def verticalBar : String := "â”‚   "

/-- The 50-character separator rule printed around the tree. -/
def eqRule : String := String.mk (List.replicate 50 '=')

/-- `_print_directory_tree` (source lines 55-85) on explicit fuel, returning
the printed lines: nothing unless the path is a directory; otherwise the
directory's own line, the recursively rendered subdirectories in sorted
order, then the files in sorted order. The fuel only bounds recursion
depth; the wrapper passes one more than the deepest path in the
filesystem, so it never runs out. -/
def printDirectoryTreeFuel (fs : FS) : Nat → List String → String → Bool → List String
  | 0, _, _, _ => []
  | fuel + 1, path, pfx, is_last =>
    if isDir fs path then
      let connector := if is_last then connectorLast else connectorMid
      let items := iterdirSorted fs path
      let dirs := items.filter (fun n => isDir fs (path ++ [n]))
      let files := items.filter (fun n => isFile fs (path ++ [n]))
      let new_pfx := pfx ++ (if is_last then "    " else verticalBar)
      (pfx ++ connector ++ pathName path ++ "/") ::
        ((dirs.enum.map (fun pr =>
          printDirectoryTreeFuel fs fuel (path ++ [pr.2]) new_pfx
            (pr.1 == dirs.length - 1 && files.isEmpty))).flatten ++
          files.enum.map (fun pr =>
            new_pfx ++ (if pr.1 == files.length - 1 then connectorLast else connectorMid) ++
              pr.2))
    else []

/-- Depth of the deepest path recorded in the filesystem. -/
def fsDepth (fs : FS) : Nat := ((fs.dirs ++ fs.files).map List.length).foldr Nat.max 0

/-- `_print_directory_tree` with sufficient fuel. -/
def print_directory_tree (fs : FS) (path : List String) (pfx : String) (is_last : Bool) :
    List String :=
  printDirectoryTreeFuel fs (fsDepth fs + 1) path pfx is_last

/-- `print_project_structure` (source lines 87-107): the banner (code points
exactly as they stand in the source file's bytes), the root's name, each
entry of the root rendered by `_print_directory_tree` with the last-entry
flag computed over all entries, and the closing rule. -/
def print_project_structure (fs : FS) (project_root : List String) : List String :=
  ["", "âœ…ï¸ Created ML project successfully",
    "", "ðŸ“ Project Structure:", eqRule, pathName project_root ++ "/"] ++
  (let items := iterdirSorted fs project_root
   (items.enum.map (fun pr =>
     print_directory_tree fs (project_root ++ [pr.2]) "" (pr.1 == items.length - 1))).flatten) ++
  [eqRule]

theorem breakAtColon_eq (s : List Char) :
    breakAtColon s =
      if ':' ∈ s then
        some (s.takeWhile (fun c => c ≠ ':'), (s.dropWhile (fun c => c ≠ ':')).drop 1)
      else none := by
  induction s with
  | nil => simp [breakAtColon]
  | cons c cs ih =>
    by_cases hc : c = ':'
    · subst hc
      simp [breakAtColon, List.takeWhile_cons, List.dropWhile_cons]
    · by_cases hmem : ':' ∈ cs
      · simp [breakAtColon, hc, ih, hmem, List.takeWhile_cons, List.dropWhile_cons,
          List.mem_cons, Ne.symm hc]
      · simp [breakAtColon, hc, ih, hmem, List.mem_cons, Ne.symm hc]

theorem parseToken_eq_claim (spec : String) : parseToken spec = claimParseToken spec := by
  unfold parseToken claimParseToken
  rw [breakAtColon_eq]
  by_cases h : ':' ∈ spec.data <;> simp [h]

theorem mem_dictInsert (m : List (String × List String)) (k : String) (v : List String)
    (p : String × List String) (hp : p ∈ dictInsert m k v) : p.1 = k ∨ p ∈ m := by
  induction m with
  | nil =>
    simp only [dictInsert, List.mem_singleton] at hp
    subst hp; exact Or.inl rfl
  | cons q rest ih =>
    obtain ⟨k', v'⟩ := q
    simp only [dictInsert] at hp
    by_cases hk : k' = k
    · rw [if_pos hk] at hp
      rcases List.mem_cons.mp hp with h | h
      · subst h; exact Or.inl rfl
      · exact Or.inr (List.mem_cons_of_mem _ h)
    · rw [if_neg hk] at hp
      rcases List.mem_cons.mp hp with h | h
      · subst h; exact Or.inr (List.mem_cons_self _ _)
      · rcases ih h with h' | h'
        · exact Or.inl h'
        · exact Or.inr (List.mem_cons_of_mem _ h')

theorem parse_keys_from_tokens (folder_specs : List String)
    (init : List (String × List String))
    (hinit : ∀ p ∈ init, p.1 ≠ "")
    (h : ∀ s ∈ folder_specs, tokenName s ≠ "") :
    ∀ p ∈ folder_specs.foldl
      (fun result spec => dictInsert result (parseToken spec).1 (parseToken spec).2) init,
      p.1 ≠ "" := by
  induction folder_specs generalizing init with
  | nil => exact hinit
  | cons s rest ih =>
    intro p hp
    refine ih (dictInsert init (parseToken s).1 (parseToken s).2) ?_ ?_ p hp
    · intro q hq
      rcases mem_dictInsert _ _ _ _ hq with h' | h'
      · rw [h']; exact h s (List.mem_cons_self _ _)
      · exact hinit q h'
    · intro t ht; exact h t (List.mem_cons_of_mem _ ht)

theorem dropWhile_append_of_space (l s : List Char) (h : ∀ c ∈ l, isPySpace c = true) :
    (l ++ s).dropWhile isPySpace = s.dropWhile isPySpace := by
  induction l with
  | nil => rfl
  | cons c cs ih =>
    have hc : isPySpace c = true := h c (List.mem_cons_self _ _)
    simp only [List.cons_append, List.dropWhile_cons, hc, if_true]
    exact ih (fun x hx => h x (List.mem_cons_of_mem _ hx))

theorem dropWhile_eq_nil_of_space (l : List Char) (h : ∀ c ∈ l, isPySpace c = true) :
    l.dropWhile isPySpace = [] := by
  have := dropWhile_append_of_space l [] h
  simpa using this

theorem pyStripChars_append_left (l s : List Char) (h : ∀ c ∈ l, isPySpace c = true) :
    pyStripChars (l ++ s) = pyStripChars s := by
  unfold pyStripChars
  rw [dropWhile_append_of_space l s h]

theorem pyStripChars_append_right (s r : List Char) (h : ∀ c ∈ r, isPySpace c = true) :
    pyStripChars (s ++ r) = pyStripChars s := by
  unfold pyStripChars
  rw [List.dropWhile_append]
  by_cases hs : (s.dropWhile isPySpace).isEmpty
  · rw [if_pos hs]
    rw [dropWhile_eq_nil_of_space r h]
    rw [List.isEmpty_iff] at hs
    rw [hs]
  · rw [if_neg hs]
    rw [List.reverse_append]
    rw [dropWhile_append_of_space _ _ (fun c hc => h c (List.mem_reverse.mp hc))]

theorem pyStripChars_pad (l p r : List Char)
    (hl : ∀ c ∈ l, isPySpace c = true) (hr : ∀ c ∈ r, isPySpace c = true) :
    pyStripChars (l ++ p ++ r) = pyStripChars p := by
  rw [List.append_assoc, pyStripChars_append_left _ _ hl, pyStripChars_append_right _ _ hr]

theorem breakAtColon_of_left (tname rest : List Char) (h : ':' ∉ tname) :
    breakAtColon (tname ++ ':' :: rest) = some (tname, rest) := by
  induction tname with
  | nil => simp [breakAtColon]
  | cons c cs ih =>
    have hc : ¬c = ':' := fun hcc => h (hcc ▸ List.mem_cons_self _ _)
    have hcs : ':' ∉ cs := fun hmem => h (List.mem_cons_of_mem _ hmem)
    simp only [List.cons_append, breakAtColon, if_neg hc, List.append_eq, ih hcs]

theorem splitCommas_of_no_comma (x : List Char) (h : ',' ∉ x) : splitCommas x = [x] := by
  induction x with
  | nil => rfl
  | cons c cs ih =>
    have hc : ¬c = ',' := fun hcc => h (hcc ▸ List.mem_cons_self _ _)
    have hcs : ',' ∉ cs := fun hmem => h (List.mem_cons_of_mem _ hmem)
    simp only [splitCommas, if_neg hc, ih hcs]

theorem splitCommas_append_comma (x r : List Char) (h : ',' ∉ x) :
    splitCommas (x ++ ',' :: r) = x :: splitCommas r := by
  induction x with
  | nil => simp [splitCommas]
  | cons c cs ih =>
    have hc : ¬c = ',' := fun hcc => h (hcc ▸ List.mem_cons_self _ _)
    have hcs : ',' ∉ cs := fun hmem => h (List.mem_cons_of_mem _ hmem)
    simp only [List.cons_append, splitCommas, if_neg hc, List.append_eq, ih hcs]

theorem splitCommas_commaJoin (xs : List (List Char)) (hne : xs ≠ [])
    (h : ∀ x ∈ xs, ',' ∉ x) : splitCommas (commaJoin xs) = xs := by
  induction xs with
  | nil => exact absurd rfl hne
  | cons x rest ih =>
    match rest with
    | [] =>
      exact splitCommas_of_no_comma x (h x (List.mem_cons_self _ _))
    | y :: rest' =>
      have hx : ',' ∉ x := h x (List.mem_cons_self _ _)
      have hrest : ∀ z ∈ y :: rest', ',' ∉ z := fun z hz => h z (List.mem_cons_of_mem _ hz)
      show splitCommas (x ++ ',' :: commaJoin (y :: rest')) = x :: (y :: rest')
      rw [splitCommas_append_comma x _ hx, ih (by simp) hrest]

theorem padPieces_map_strip (padl pieces padr : List (List Char))
    (hl : padl.length = pieces.length) (hr : padr.length = pieces.length)
    (hlws : ∀ l ∈ padl, ∀ c ∈ l, isPySpace c = true)
    (hrws : ∀ r ∈ padr, ∀ c ∈ r, isPySpace c = true) :
    (padPieces padl pieces padr).map pyStripChars = pieces.map pyStripChars := by
  induction pieces generalizing padl padr with
  | nil =>
    rw [List.length_nil, List.length_eq_zero] at hl hr
    subst hl; subst hr; rfl
  | cons p ps ih =>
    match padl, padr with
    | [], _ => simp at hl
    | _, [] => simp at hr
    | l :: ls, r :: rs =>
      simp only [List.length_cons, Nat.succ_inj] at hl hr
      have hlw := hlws l (List.mem_cons_self _ _)
      have hrw := hrws r (List.mem_cons_self _ _)
      simp only [padPieces, List.zipWith3, List.map_cons]
      rw [pyStripChars_pad l p r hlw hrw]
      congr 1
      exact ih ls rs hl hr (fun x hx => hlws x (List.mem_cons_of_mem _ hx))
        (fun x hx => hrws x (List.mem_cons_of_mem _ hx))

theorem padPieces_no_comma (padl pieces padr : List (List Char))
    (hp : ∀ p ∈ pieces, ',' ∉ p)
    (hlws : ∀ l ∈ padl, ∀ c ∈ l, isPySpace c = true)
    (hrws : ∀ r ∈ padr, ∀ c ∈ r, isPySpace c = true) :
    ∀ x ∈ padPieces padl pieces padr, ',' ∉ x := by
  induction pieces generalizing padl padr with
  | nil =>
    intro x hx
    simp only [padPieces] at hx
    cases padl <;> cases padr <;> simp [List.zipWith3] at hx
  | cons p ps ih =>
    intro x hx
    match padl, padr with
    | [], _ => simp [padPieces, List.zipWith3] at hx
    | l :: ls, [] => simp [padPieces, List.zipWith3] at hx
    | l :: ls, r :: rs =>
      simp only [padPieces, List.zipWith3, List.mem_cons] at hx
      rcases hx with hx | hx
      · subst hx
        intro hmem
        rcases List.mem_append.mp hmem with hmem' | hmem'
        · rcases List.mem_append.mp hmem' with h2 | h2
          · have := hlws l (List.mem_cons_self _ _) ',' h2
            simp [isPySpace] at this
          · exact hp p (List.mem_cons_self _ _) h2
        · have := hrws r (List.mem_cons_self _ _) ',' hmem'
          simp [isPySpace] at this
      · exact ih ls rs (fun q hq => hp q (List.mem_cons_of_mem _ hq))
          (fun q hq => hlws q (List.mem_cons_of_mem _ hq))
          (fun q hq => hrws q (List.mem_cons_of_mem _ hq)) x hx

theorem dictGet?_insert (m : List (String × List String)) (k k' : String) (v : List String) :
    dictGet? (dictInsert m k v) k' = if k' = k then some v else dictGet? m k' := by
  induction m with
  | nil =>
    by_cases h : k' = k
    · subst h; simp [dictGet?, dictInsert, List.find?]
    · have hb : (k == k') = false := beq_eq_false_iff_ne.mpr (fun hh => h hh.symm)
      simp [dictGet?, dictInsert, List.find?, hb, h]
  | cons q rest ih =>
    obtain ⟨k₀, v₀⟩ := q
    by_cases h0 : k₀ = k
    · subst h0
      by_cases h : k' = k₀
      · subst h; simp [dictGet?, dictInsert, List.find?]
      · have hb : (k₀ == k') = false := beq_eq_false_iff_ne.mpr (fun hh => h hh.symm)
        simp [dictGet?, dictInsert, List.find?, hb, h]
    · simp only [dictInsert, if_neg h0]
      by_cases h : k' = k₀
      · subst h
        simp [dictGet?, List.find?, if_neg h0]
      · have hb : (k₀ == k') = false := beq_eq_false_iff_ne.mpr (fun hh => h hh.symm)
        simp only [dictGet?, List.find?, hb] at ih ⊢
        exact ih

theorem data_mk (l : List Char) : (String.mk l).data = l := rfl

theorem dictGet?_parse (folder_specs : List String) (k : String) :
    dictGet? (parse_folders_with_colon folder_specs) k =
      ((folder_specs.filter (fun s => tokenName s == k)).getLast?).map tokenSubs := by
  induction folder_specs using List.reverseRecOn with
  | nil => rfl
  | append_singleton l x ih =>
    unfold parse_folders_with_colon at ih ⊢
    rw [List.foldl_append]
    simp only [List.foldl_cons, List.foldl_nil]
    rw [dictGet?_insert, List.filter_append]
    by_cases h : k = tokenName x
    · have hb : (tokenName x == k) = true := beq_iff_eq.mpr h.symm
      rw [if_pos (show k = (parseToken x).1 from h)]
      simp [List.filter, hb, tokenSubs, List.getLast?_concat]
    · have hb : (tokenName x == k) = false := beq_eq_false_iff_ne.mpr (fun hh => h hh.symm)
      rw [if_neg (show ¬k = (parseToken x).1 from h)]
      simp [List.filter, hb, ih]

/-- C3 (amended): every key of the mapping returned by
`parse_folders_with_colon` is non-empty provided every token's folder-name
part (the whole token when it has no colon, otherwise the part before the
first colon) is non-empty. The unrestricted claim fails: see the
counterexample on input `[""]`. -/
theorem C3_keys_nonempty (folder_specs : List String)
    (h : ∀ s ∈ folder_specs, tokenName s ≠ "") :
    "" ∉ (parse_folders_with_colon folder_specs).map Prod.fst := by
  intro hmem
  rcases List.mem_map.mp hmem with ⟨p, hp, hp1⟩
  exact parse_keys_from_tokens folder_specs [] (by simp) h p hp hp1

/-- C3 counterexample: on the input `[""]` the parser returns a mapping whose
only key is the empty string, so not every key is non-empty. -/
theorem C3_counterexample : "" ∈ (parse_folders_with_colon [""]).map Prod.fst := by
  decide

/-- C3 witness: concrete instance of the amended statement. -/
theorem C3_witness :
    "" ∉ (parse_folders_with_colon ["data:raw,processed", "scripts"]).map Prod.fst :=
  C3_keys_nonempty ["data:raw,processed", "scripts"] (by decide)

/-- C4: the parser treats every token exactly as the spec describes — split
at the first colon only, the left part is the folder name, the right part is
split on commas with each piece stripped of surrounding whitespace and empty
pieces discarded, and a token without a colon maps to an empty subfolder
list; moreover the spec's example parses as stated. -/
theorem C4_token_parse :
    (∀ folder_specs : List String,
      parse_folders_with_colon folder_specs =
        folder_specs.foldl
          (fun result spec =>
            dictInsert result (claimParseToken spec).1 (claimParseToken spec).2) []) ∧
    parse_folders_with_colon ["data:raw,processed", "scripts"] =
      [("data", ["raw", "processed"]), ("scripts", [])] := by
  refine ⟨fun folder_specs => ?_, by decide⟩
  unfold parse_folders_with_colon
  congr 1
  funext result spec
  rw [parseToken_eq_claim]

/-- C5: parsing a colon token is invariant under whitespace padding around
the comma-separated subfolder pieces: padding each piece on the left and
right with whitespace does not change the parsed mapping. -/
theorem C5_whitespace_invariant (tname : List Char) (pieces padl padr : List (List Char))
    (hname : ':' ∉ tname)
    (hp : ∀ p ∈ pieces, ',' ∉ p)
    (hl : padl.length = pieces.length) (hr : padr.length = pieces.length)
    (hlws : ∀ l ∈ padl, ∀ c ∈ l, isPySpace c = true)
    (hrws : ∀ r ∈ padr, ∀ c ∈ r, isPySpace c = true) :
    parse_folders_with_colon
        [String.mk (tname ++ ':' :: commaJoin (padPieces padl pieces padr))] =
      parse_folders_with_colon [String.mk (tname ++ ':' :: commaJoin pieces)] := by
  have key : parseToken (String.mk (tname ++ ':' :: commaJoin (padPieces padl pieces padr))) =
      parseToken (String.mk (tname ++ ':' :: commaJoin pieces)) := by
    unfold parseToken
    simp only [data_mk]
    rw [breakAtColon_of_left _ _ hname, breakAtColon_of_left _ _ hname]
    match pieces, padl, padr, hl, hr with
    | [], [], [], _, _ => rfl
    | p :: ps, l :: ls, r :: rs, hl, hr =>
      have hne : padPieces (l :: ls) (p :: ps) (r :: rs) ≠ [] := by
        simp [padPieces, List.zipWith3]
      dsimp only
      rw [splitCommas_commaJoin _ hne (padPieces_no_comma _ _ _ hp hlws hrws),
        splitCommas_commaJoin _ (by simp) hp,
        padPieces_map_strip _ _ _ hl hr hlws hrws]
  unfold parse_folders_with_colon
  simp only [List.foldl_cons, List.foldl_nil, key]

/-- C5 witness: the spec's instance, `"data: raw , processed "` parses
exactly like `"data:raw,processed"`. -/
theorem C5_witness :
    parse_folders_with_colon ["data: raw , processed "] =
      parse_folders_with_colon ["data:raw,processed"] := by
  have h := C5_whitespace_invariant "data".data ["raw".data, "processed".data]
    [[' '], [' ']] [[' '], [' ']] (by decide) (by decide) (by decide) (by decide)
    (by decide) (by decide)
  exact h

/-- C6: when two tokens carry the same folder name and no later token reuses
it, the parsed mapping holds the later token's subfolder list, and (when the
two lists differ) not the earlier token's. -/
theorem C6_last_write_wins (pre mid post : List String) (t₁ t₂ : String)
    (_hname : tokenName t₁ = tokenName t₂)
    (hlast : ∀ s ∈ post, tokenName s ≠ tokenName t₂) :
    dictGet? (parse_folders_with_colon (pre ++ t₁ :: (mid ++ t₂ :: post))) (tokenName t₂) =
      some (tokenSubs t₂) ∧
    (tokenSubs t₁ ≠ tokenSubs t₂ →
      dictGet? (parse_folders_with_colon (pre ++ t₁ :: (mid ++ t₂ :: post))) (tokenName t₂) ≠
        some (tokenSubs t₁)) := by
  have hsplit : pre ++ t₁ :: (mid ++ t₂ :: post) = (pre ++ t₁ :: mid) ++ t₂ :: post := by
    simp
  have hpost : post.filter (fun s => tokenName s == tokenName t₂) = [] := by
    rw [List.filter_eq_nil_iff]
    intro s hs
    simp [beq_eq_false_iff_ne.mpr (hlast s hs)]
  have main : dictGet? (parse_folders_with_colon (pre ++ t₁ :: (mid ++ t₂ :: post)))
      (tokenName t₂) = some (tokenSubs t₂) := by
    rw [dictGet?_parse, hsplit, List.filter_append]
    have ht₂ : (tokenName t₂ == tokenName t₂) = true := beq_self_eq_true _
    simp only [List.filter_cons, ht₂, if_pos, hpost]
    rw [List.getLast?_concat]
    rfl
  refine ⟨main, fun hne heq => ?_⟩
  rw [main] at heq
  exact hne ((Option.some.injEq _ _ ▸ heq : tokenSubs t₂ = tokenSubs t₁)).symm

/-- C6 witness: concrete duplicate keys, the later token wins. -/
theorem C6_witness :
    dictGet? (parse_folders_with_colon ["data:x", "data:y,z"]) "data" = some ["y", "z"] := by
  have h := (C6_last_write_wins [] [] [] "data:x" "data:y,z" (by decide) (by decide)).1
  exact h

theorem isDir_iff (fs : FS) (p : List String) : isDir fs p = true ↔ p ∈ fs.dirs := by
  simp [isDir]

theorem mkdir_of_mem (fs : FS) (p : List String) (h : p ∈ fs.dirs) : mkdir fs p = .ok fs := by
  unfold mkdir
  rw [if_pos ((isDir_iff fs p).mpr h)]

theorem mkdir_ok_spec (fs fs' : FS) (p : List String) (h : mkdir fs p = .ok fs') :
    fs.dirs ⊆ fs'.dirs ∧ fs'.files = fs.files ∧ p ∈ fs'.dirs := by
  unfold mkdir at h
  by_cases h1 : isDir fs p = true
  · rw [if_pos h1] at h
    cases h
    exact ⟨fun q hq => hq, rfl, (isDir_iff _ _).mp h1⟩
  · rw [if_neg h1] at h
    by_cases h2 : isFile fs p = true
    · rw [if_pos h2] at h; cases h
    · rw [if_neg h2] at h
      by_cases h3 : isDir fs p.dropLast = true
      · rw [if_pos h3] at h
        cases h
        exact ⟨fun q hq => List.mem_cons_of_mem _ hq, rfl, List.mem_cons_self _ _⟩
      · rw [if_neg h3] at h; cases h

theorem mkdirSubs_ok_spec (folder_path : List String) (sub_folders : List String)
    (fs fs' : FS) (h : mkdirSubs folder_path sub_folders fs = .ok fs') :
    fs.dirs ⊆ fs'.dirs ∧ fs'.files = fs.files ∧
      ∀ s ∈ sub_folders, folder_path ++ [s] ∈ fs'.dirs := by
  induction sub_folders generalizing fs with
  | nil =>
    cases h
    exact ⟨fun q hq => hq, rfl, by simp⟩
  | cons s rest ih =>
    unfold mkdirSubs at h
    cases hmk : mkdir fs (folder_path ++ [s]) with
    | error e => rw [hmk] at h; cases h
    | ok fs₁ =>
      rw [hmk] at h
      obtain ⟨hsub, hfiles, hmem⟩ := mkdir_ok_spec fs fs₁ _ hmk
      obtain ⟨hsub', hfiles', hall⟩ := ih fs₁ h
      refine ⟨fun q hq => hsub' (hsub hq), hfiles'.trans hfiles, ?_⟩
      intro t ht
      rcases List.mem_cons.mp ht with ht | ht
      · subst ht; exact hsub' hmem
      · exact hall t ht

theorem mkdirSubs_noop (folder_path : List String) (sub_folders : List String) (fs : FS)
    (h : ∀ s ∈ sub_folders, folder_path ++ [s] ∈ fs.dirs) :
    mkdirSubs folder_path sub_folders fs = .ok fs := by
  induction sub_folders with
  | nil => rfl
  | cons s rest ih =>
    unfold mkdirSubs
    rw [mkdir_of_mem fs _ (h s (List.mem_cons_self _ _))]
    exact ih (fun t ht => h t (List.mem_cons_of_mem _ ht))

theorem mkdirSubs_error_spec (folder_path : List String) (sub_folders : List String)
    (fs fs' : FS) (e : OSErr) (h : mkdirSubs folder_path sub_folders fs = .error (e, fs')) :
    fs.dirs ⊆ fs'.dirs ∧ fs'.files = fs.files := by
  induction sub_folders generalizing fs with
  | nil => cases h
  | cons s rest ih =>
    unfold mkdirSubs at h
    cases hmk : mkdir fs (folder_path ++ [s]) with
    | error e' =>
      rw [hmk] at h
      cases h
      exact ⟨fun q hq => hq, rfl⟩
    | ok fs₁ =>
      rw [hmk] at h
      obtain ⟨hsub, hfiles, _⟩ := mkdir_ok_spec fs fs₁ _ hmk
      obtain ⟨hsub', hfiles'⟩ := ih fs₁ h
      exact ⟨fun q hq => hsub' (hsub hq), hfiles'.trans hfiles⟩

theorem create_directory_recursive_ok_spec (base_path : List String)
    (struct : List (String × List String)) (fs fs' : FS)
    (h : create_directory_recursive base_path struct fs = .ok fs') :
    fs.dirs ⊆ fs'.dirs ∧ fs'.files = fs.files ∧
      ∀ fp ∈ struct, base_path ++ [fp.1] ∈ fs'.dirs ∧
        ∀ s ∈ fp.2, (base_path ++ [fp.1]) ++ [s] ∈ fs'.dirs := by
  induction struct generalizing fs with
  | nil =>
    cases h
    exact ⟨fun q hq => hq, rfl, by simp⟩
  | cons fp rest ih =>
    obtain ⟨folder_name, sub_folders⟩ := fp
    unfold create_directory_recursive at h
    cases hmk : mkdir fs (base_path ++ [folder_name]) with
    | error e => simp only [hmk] at h; cases h
    | ok fs₁ =>
      simp only [hmk] at h
      cases hms : mkdirSubs (base_path ++ [folder_name]) sub_folders fs₁ with
      | error efs => simp only [hms] at h; cases h
      | ok fs₂ =>
        simp only [hms] at h
        obtain ⟨hsub₁, hfiles₁, hmem₁⟩ := mkdir_ok_spec fs fs₁ _ hmk
        obtain ⟨hsub₂, hfiles₂, hall₂⟩ := mkdirSubs_ok_spec _ _ fs₁ fs₂ hms
        obtain ⟨hsub₃, hfiles₃, hall₃⟩ := ih fs₂ h
        refine ⟨fun q hq => hsub₃ (hsub₂ (hsub₁ hq)),
          (hfiles₃.trans hfiles₂).trans hfiles₁, ?_⟩
        intro q hq
        rcases List.mem_cons.mp hq with hq | hq
        · subst hq
          exact ⟨hsub₃ (hsub₂ hmem₁), fun s hs => hsub₃ (hall₂ s hs)⟩
        · exact hall₃ q hq

theorem create_directory_recursive_noop (base_path : List String)
    (struct : List (String × List String)) (fs : FS)
    (h : ∀ fp ∈ struct, base_path ++ [fp.1] ∈ fs.dirs ∧
      ∀ s ∈ fp.2, (base_path ++ [fp.1]) ++ [s] ∈ fs.dirs) :
    create_directory_recursive base_path struct fs = .ok fs := by
  induction struct with
  | nil => rfl
  | cons fp rest ih =>
    obtain ⟨folder_name, sub_folders⟩ := fp
    obtain ⟨hfolder, hsubs⟩ := h (folder_name, sub_folders) (List.mem_cons_self _ _)
    unfold create_directory_recursive
    simp only [mkdir_of_mem fs _ hfolder, mkdirSubs_noop _ _ fs hsubs]
    exact ih (fun q hq => h q (List.mem_cons_of_mem _ hq))

theorem create_directory_recursive_error_spec (base_path : List String)
    (struct : List (String × List String)) (fs fs' : FS) (e : OSErr)
    (h : create_directory_recursive base_path struct fs = .error (e, fs')) :
    fs.dirs ⊆ fs'.dirs ∧ fs'.files = fs.files := by
  induction struct generalizing fs with
  | nil => cases h
  | cons fp rest ih =>
    obtain ⟨folder_name, sub_folders⟩ := fp
    unfold create_directory_recursive at h
    cases hmk : mkdir fs (base_path ++ [folder_name]) with
    | error e' =>
      simp only [hmk] at h
      cases h
      exact ⟨fun q hq => hq, rfl⟩
    | ok fs₁ =>
      simp only [hmk] at h
      obtain ⟨hsub₁, hfiles₁, _⟩ := mkdir_ok_spec fs fs₁ _ hmk
      cases hms : mkdirSubs (base_path ++ [folder_name]) sub_folders fs₁ with
      | error efs =>
        simp only [hms] at h
        cases h
        obtain ⟨hsub₂, hfiles₂⟩ := mkdirSubs_error_spec _ _ fs₁ fs' e hms
        exact ⟨fun q hq => hsub₂ (hsub₁ hq), hfiles₂.trans hfiles₁⟩
      | ok fs₂ =>
        simp only [hms] at h
        obtain ⟨hsub₂, hfiles₂, _⟩ := mkdirSubs_ok_spec _ _ fs₁ fs₂ hms
        obtain ⟨hsub₃, hfiles₃⟩ := ih fs₂ h
        exact ⟨fun q hq => hsub₃ (hsub₂ (hsub₁ hq)),
          (hfiles₃.trans hfiles₂).trans hfiles₁⟩

theorem create_project_ok_spec (struct : List (String × List String)) (project_name : String)
    (now : DateTime) (cwd : List String) (fs fs' : FS) (root : List String)
    (h : create_project struct project_name now cwd fs = .ok (root, fs')) :
    root = cwd ++ [project_name ++ "_" ++ strftime_YmdHMS now] ∧
    fs.dirs ⊆ fs'.dirs ∧ fs'.files = fs.files ∧ root ∈ fs'.dirs ∧
    ∀ fp ∈ struct, root ++ [fp.1] ∈ fs'.dirs ∧
      ∀ s ∈ fp.2, (root ++ [fp.1]) ++ [s] ∈ fs'.dirs := by
  unfold create_project at h
  by_cases hstrip : pyStrip project_name = ""
  · rw [if_pos hstrip] at h; cases h
  · rw [if_neg hstrip] at h
    cases hmk : mkdir fs (cwd ++ [project_name ++ "_" ++ strftime_YmdHMS now]) with
    | error e => simp only [hmk] at h; cases h
    | ok fs₁ =>
      simp only [hmk] at h
      cases hcdr : create_directory_recursive
          (cwd ++ [project_name ++ "_" ++ strftime_YmdHMS now]) struct fs₁ with
      | error efs =>
        obtain ⟨e₂, fs₂⟩ := efs
        simp only [hcdr] at h; cases h
      | ok fs₂ =>
        simp only [hcdr] at h
        cases h
        obtain ⟨hsub₁, hfiles₁, hmem₁⟩ := mkdir_ok_spec fs fs₁ _ hmk
        obtain ⟨hsub₂, hfiles₂, hall₂⟩ := create_directory_recursive_ok_spec _ _ _ _ hcdr
        exact ⟨rfl, fun q hq => hsub₂ (hsub₁ hq), hfiles₂.trans hfiles₁, hsub₂ hmem₁, hall₂⟩

/-- C1 (amended): on success, `create_project` returns — and records as a
created directory — the root path formed from the current working directory,
the UNTRIMMED project name, a literal underscore, and the timestamp formatted
`YYYYMMDD_HHMMSS`. The original claim's "trimmed project name" fails: see the
counterexample, where a name with leading whitespace is used verbatim. -/
theorem C1_root_path (struct : List (String × List String)) (project_name : String)
    (now : DateTime) (cwd : List String) (fs fs' : FS) (root : List String)
    (_hname : pyStrip project_name ≠ "")
    (h : create_project struct project_name now cwd fs = .ok (root, fs')) :
    root = cwd ++ [project_name ++ "_" ++ strftime_YmdHMS now] ∧ root ∈ fs'.dirs := by
  obtain ⟨h1, _, _, h4, _⟩ := create_project_ok_spec struct project_name now cwd fs fs' root h
  exact ⟨h1, h4⟩

/-- C1 counterexample: the project name `" test"` has trimmed form `"test"`
(non-empty), yet the returned root component is `" test_20240102_030405"`,
not the trimmed `"test_20240102_030405"` the claim requires. -/
theorem C1_counterexample :
    create_project [] " test" ⟨2024, 1, 2, 3, 4, 5⟩ ["home"] ⟨[["home"]], []⟩ =
      .ok (["home", " test_20240102_030405"],
        ⟨[["home", " test_20240102_030405"], ["home"]], []⟩) ∧
    ["home", " test_20240102_030405"] ≠ ["home", "test_20240102_030405"] := by
  exact ⟨by decide, by decide⟩

/-- C1 witness: concrete successful run of the amended statement. -/
theorem C1_witness :
    ["home", "proj_20240102_030405"] =
      ["home"] ++ ["proj" ++ "_" ++ strftime_YmdHMS ⟨2024, 1, 2, 3, 4, 5⟩] ∧
    ["home", "proj_20240102_030405"] ∈
      (FS.mk [["home", "proj_20240102_030405"], ["home"]] []).dirs :=
  C1_root_path [] "proj" ⟨2024, 1, 2, 3, 4, 5⟩ ["home"] ⟨[["home"]], []⟩
    ⟨[["home", "proj_20240102_030405"], ["home"]], []⟩ ["home", "proj_20240102_030405"]
    (by decide) (by decide)

/-- C7: a project name that is empty after stripping makes `create_project`
fail with the Input error (`ValueError`) while the filesystem is returned
untouched, before any directory operation; a name with non-empty trimmed
form never produces a `ValueError`. -/
theorem C7_empty_name (struct : List (String × List String)) (project_name : String)
    (now : DateTime) (cwd : List String) (fs : FS) :
    (pyStrip project_name = "" →
      create_project struct project_name now cwd fs =
        .error (.valueError "Project name cannot be empty", fs)) ∧
    (pyStrip project_name ≠ "" →
      ∀ (msg : String) (fs' : FS),
        create_project struct project_name now cwd fs ≠ .error (.valueError msg, fs')) := by
  constructor
  · intro hstrip
    unfold create_project
    rw [if_pos hstrip]
  · intro hne msg fs' heq
    unfold create_project at heq
    rw [if_neg hne] at heq
    cases hmk : mkdir fs (cwd ++ [project_name ++ "_" ++ strftime_YmdHMS now]) with
    | error e => simp only [hmk] at heq; simp at heq
    | ok fs₁ =>
      simp only [hmk] at heq
      cases hcdr : create_directory_recursive
          (cwd ++ [project_name ++ "_" ++ strftime_YmdHMS now]) struct fs₁ with
      | error efs =>
        obtain ⟨e₂, fs₂⟩ := efs
        simp only [hcdr] at heq; simp at heq
      | ok fs₂ => simp only [hcdr] at heq; cases heq

/-- C7 witness: a whitespace-only name fails with the Input error and the
untouched filesystem; a valid name does not produce an Input error. -/
theorem C7_witness :
    create_project [] "   " ⟨2024, 1, 2, 3, 4, 5⟩ ["home"] ⟨[["home"]], []⟩ =
      .error (.valueError "Project name cannot be empty", ⟨[["home"]], []⟩) ∧
    create_project [] "proj" ⟨2024, 1, 2, 3, 4, 5⟩ ["home"] ⟨[["home"]], []⟩ ≠
      .error (.valueError "Project name cannot be empty", ⟨[["home"]], []⟩) :=
  ⟨(C7_empty_name [] "   " ⟨2024, 1, 2, 3, 4, 5⟩ ["home"] ⟨[["home"]], []⟩).1 (by decide),
    (C7_empty_name [] "proj" ⟨2024, 1, 2, 3, 4, 5⟩ ["home"] ⟨[["home"]], []⟩).2 (by decide)
      "Project name cannot be empty" ⟨[["home"]], []⟩⟩

/-- C8: directory creation is idempotent — a successful `create_project`
leaves every required directory present, so running it again from the
resulting filesystem (same timestamp, hence same root) succeeds and changes
nothing. -/
theorem C8_idempotent (struct : List (String × List String)) (project_name : String)
    (now : DateTime) (cwd : List String) (fs fs' : FS) (root : List String)
    (h : create_project struct project_name now cwd fs = .ok (root, fs')) :
    create_project struct project_name now cwd fs' = .ok (root, fs') := by
  obtain ⟨hroot, _, _, hrootmem, hall⟩ :=
    create_project_ok_spec struct project_name now cwd fs fs' root h
  subst hroot
  unfold create_project at h ⊢
  by_cases hstrip : pyStrip project_name = ""
  · rw [if_pos hstrip] at h; cases h
  · rw [if_neg hstrip]
    have hmk₂ : mkdir fs' (cwd ++ [project_name ++ "_" ++ strftime_YmdHMS now]) = .ok fs' :=
      mkdir_of_mem fs' _ hrootmem
    have hcdr₂ : create_directory_recursive
        (cwd ++ [project_name ++ "_" ++ strftime_YmdHMS now]) struct fs' = .ok fs' :=
      create_directory_recursive_noop _ _ fs' hall
    simp only [hmk₂, hcdr₂]

/-- C8 witness: a second run on the filesystem produced by a successful
first run returns the same root and filesystem. -/
theorem C8_witness :
    create_project [("data", ["raw"])] "p" ⟨2024, 1, 2, 3, 4, 5⟩ ["home"]
        ⟨[["home", "p_20240102_030405", "data", "raw"],
          ["home", "p_20240102_030405", "data"],
          ["home", "p_20240102_030405"], ["home"]], []⟩ =
      .ok (["home", "p_20240102_030405"],
        ⟨[["home", "p_20240102_030405", "data", "raw"],
          ["home", "p_20240102_030405", "data"],
          ["home", "p_20240102_030405"], ["home"]], []⟩) :=
  C8_idempotent [("data", ["raw"])] "p" ⟨2024, 1, 2, 3, 4, 5⟩ ["home"] ⟨[["home"]], []⟩
    ⟨[["home", "p_20240102_030405", "data", "raw"],
      ["home", "p_20240102_030405", "data"],
      ["home", "p_20240102_030405"], ["home"]], []⟩
    ["home", "p_20240102_030405"] (by decide)

/-- C9: an OS-level failure inside `create_project` propagates to the caller
as a File-system error (re-raised unchanged), and the error path performs no
rollback — every directory present before (or created before the failure)
is still present in the filesystem state carried by the error, and the files
are untouched. -/
theorem C9_failure (struct : List (String × List String)) (project_name : String)
    (now : DateTime) (cwd : List String) (fs fs' : FS) (e : OSErr)
    (h : create_project struct project_name now cwd fs = .error (.osError e, fs')) :
    fs.dirs ⊆ fs'.dirs ∧ fs'.files = fs.files ∧
      main_error_category (.osError e) = "File system error" := by
  unfold create_project at h
  by_cases hstrip : pyStrip project_name = ""
  · rw [if_pos hstrip] at h; simp at h
  · rw [if_neg hstrip] at h
    cases hmk : mkdir fs (cwd ++ [project_name ++ "_" ++ strftime_YmdHMS now]) with
    | error e₁ =>
      simp only [hmk] at h
      cases h
      exact ⟨fun q hq => hq, rfl, rfl⟩
    | ok fs₁ =>
      simp only [hmk] at h
      obtain ⟨hsub₁, hfiles₁, _⟩ := mkdir_ok_spec fs fs₁ _ hmk
      cases hcdr : create_directory_recursive
          (cwd ++ [project_name ++ "_" ++ strftime_YmdHMS now]) struct fs₁ with
      | error efs =>
        obtain ⟨e₂, fs₂⟩ := efs
        simp only [hcdr] at h
        cases h
        obtain ⟨hsub₂, hfiles₂⟩ := create_directory_recursive_error_spec _ _ fs₁ fs' e hcdr
        exact ⟨fun q hq => hsub₂ (hsub₁ hq), hfiles₂.trans hfiles₁, rfl⟩
      | ok fs₂ => simp only [hcdr] at h; cases h

/-- C9 witness: a file standing where `data` should be created makes the
run fail with a File-system error while the root directory created just
before the failure remains present. -/
theorem C9_witness :
    ["home"] ∈ (FS.mk [["home", "p_20240102_030405"], ["home"]]
      [["home", "p_20240102_030405", "data"]]).dirs ∧
    (FS.mk [["home", "p_20240102_030405"], ["home"]]
      [["home", "p_20240102_030405", "data"]]).files =
      (FS.mk [["home"]] [["home", "p_20240102_030405", "data"]]).files := by
  have h := C9_failure [("data", ["raw"])] "p" ⟨2024, 1, 2, 3, 4, 5⟩ ["home"]
    ⟨[["home"]], [["home", "p_20240102_030405", "data"]]⟩
    ⟨[["home", "p_20240102_030405"], ["home"]], [["home", "p_20240102_030405", "data"]]⟩
    (.fileExists ["home", "p_20240102_030405", "data"]) (by decide)
  exact ⟨h.1 (by decide), h.2.1⟩

theorem printDirectoryTreeFuel_of_not_dir (fs : FS) (fuel : Nat) (path : List String)
    (pfx : String) (is_last : Bool) (h : isDir fs path = false) :
    printDirectoryTreeFuel fs fuel path pfx is_last = [] := by
  cases fuel with
  | zero => rfl
  | succ n =>
    unfold printDirectoryTreeFuel
    rw [if_neg (by simp [h])]

/-- C2: the tree renderer applied to a root directory holding one empty
subdirectory `a` and one regular file `b.txt` lists `a/` before `b.txt`,
renders both as children of the root with the source's connector strings
(the file's literal bytes for `├── `/`└── `), and marks `b.txt` — and not
`a/` — as the last entry of that level. -/
theorem C2_tree_render :
    print_directory_tree ⟨[["root"], ["root", "a"]], [["root", "b.txt"]]⟩ ["root"] "" true =
      [connectorLast ++ "root/",
        "    " ++ connectorMid ++ "a/",
        "    " ++ connectorLast ++ "b.txt"] := by
  decide

/-- C10: `_print_directory_tree` on a path that is not a directory prints
nothing, so `print_project_structure` never prints regular files that sit
directly in the project root — yet such files still count when the
last-sibling flag is computed, which is why the sole printed entry `a/`
carries the not-last connector in the concrete output below. -/
theorem C10_root_files_skipped (fs : FS) (path : List String) (pfx : String)
    (is_last : Bool) (h : isDir fs path = false) :
    print_directory_tree fs path pfx is_last = [] ∧
    print_project_structure ⟨[["root"], ["root", "a"]], [["root", "b.txt"]]⟩ ["root"] =
      ["", "âœ…ï¸ Created ML project successfully", "", "ðŸ“ Project Structure:",
        eqRule, "root/", connectorMid ++ "a/", eqRule] := by
  exact ⟨printDirectoryTreeFuel_of_not_dir fs _ path pfx is_last h, by decide⟩

/-- C10 witness: the root-level file `b.txt` itself renders to nothing. -/
theorem C10_witness :
    print_directory_tree ⟨[["root"], ["root", "a"]], [["root", "b.txt"]]⟩
        ["root", "b.txt"] "" true = [] ∧
    print_project_structure ⟨[["root"], ["root", "a"]], [["root", "b.txt"]]⟩ ["root"] =
      ["", "âœ…ï¸ Created ML project successfully", "", "ðŸ“ Project Structure:",
        eqRule, "root/", connectorMid ++ "a/", eqRule] :=
  C10_root_files_skipped ⟨[["root"], ["root", "a"]], [["root", "b.txt"]]⟩
    ["root", "b.txt"] "" true (by decide)

end MLProject

